import Mathlib

/-!
Verification of the DWARF decoder of the sym-exposer repository.

The Go sources (src/binutil/binutil.go, src/dwarf/dwarf.go, src/elf/elf.go)
are embedded shallowly: byte slices become `List Nat` whose elements are read
modulo 256, machine integers become `Nat`/`Int` with explicit reductions
modulo 2^64 (or 256) exactly where the Go arithmetic wraps, Go panics and
`error` returns become `Option`/`none`, and the Go `v, _ := f(...)` pattern
that discards an error keeps the zero value the callee left behind.
Loops whose Go counterparts can diverge are driven by an explicit fuel
argument; exhausting the fuel yields `none`.
-/

namespace SymExposer

/-- Little-endian value of the first `w` bytes of `bs` (each byte taken
mod 256), as produced by Go `binary.Read` with `binary.LittleEndian` into a
`w`-byte unsigned integer. -/
def leNat : Nat → List Nat → Nat
  | 0, _ => 0
  | _ + 1, [] => 0
  | w + 1, b :: bs => b % 256 + 256 * leNat w bs

/-- Embeds `binutil.FromLeToUInt16`: error (`none`) iff fewer than 2 bytes. -/
def FromLeToUInt16 (buf : List Nat) : Option Nat :=
  if buf.length < 2 then none else some (leNat 2 buf)

/-- Embeds `binutil.FromLeToUInt32`: error (`none`) iff fewer than 4 bytes. -/
def FromLeToUInt32 (buf : List Nat) : Option Nat :=
  if buf.length < 4 then none else some (leNat 4 buf)

/-- Embeds `binutil.FromLeToUInt64`: error (`none`) iff fewer than 8 bytes. -/
def FromLeToUInt64 (buf : List Nat) : Option Nat :=
  if buf.length < 8 then none else some (leNat 8 buf)

/-- Go slice expression `bs[off:]`: panics (`none`) when `off` exceeds the
slice length. -/
def sliceFrom (bs : List Nat) (off : Nat) : Option (List Nat) :=
  if off ≤ bs.length then some (bs.drop off) else none

/-- The Go pattern `v, _ := binutil.FromLeToUInt16(bin[off:])`: the slice
expression panics when `off > len(bin)`; the read error is discarded, leaving
the zero value `0` in `v`. -/
def readU16D (bs : List Nat) (off : Nat) : Option Nat :=
  (sliceFrom bs off).map (fun s => (FromLeToUInt16 s).getD 0)

/-- The Go pattern `v, _ := binutil.FromLeToUInt32(bin[off:])`. -/
def readU32D (bs : List Nat) (off : Nat) : Option Nat :=
  (sliceFrom bs off).map (fun s => (FromLeToUInt32 s).getD 0)

/-- The Go pattern `v, _ := binutil.FromLeToUInt64(bin[off:])`. -/
def readU64D (bs : List Nat) (off : Nat) : Option Nat :=
  (sliceFrom bs off).map (fun s => (FromLeToUInt64 s).getD 0)

/-- Loop body of `dwarf.ReaduLEB128`, with `pos` the index of the byte at the
head of the remaining list and `val` the `uint64` accumulator (a value in
`[0, 2^64)`).  Go semantics embedded: `tmp << (7*pos)` on `uint64` is `0`
when the shift count reaches 64, products and sums wrap modulo `2^64`, and
when the loop runs off the end of the slice the function returns the
accumulator with byte count `pos + 1` — there is no error result. -/
def ReaduLEB128go : List Nat → Nat → Nat → Nat × Nat
  | [], pos, val => (val, pos + 1)
  | b :: rest, pos, val =>
    let t := if 7 * pos < 64 then b % 128 * 2 ^ (7 * pos) % 2 ^ 64 else 0
    let v := (val + t) % 2 ^ 64
    if b % 256 < 128 then (v, pos + 1) else ReaduLEB128go rest (pos + 1) v

/-- Embeds `dwarf.ReaduLEB128` (returns decoded value and byte count). -/
def ReaduLEB128 (bytes : List Nat) : Nat × Nat :=
  ReaduLEB128go bytes 0 0

/-- Reinterpret a 64-bit pattern (a `Nat` below `2^64`) as a Go `int64`. -/
def toInt64 (p : Nat) : Int :=
  if p < 2 ^ 63 then (p : Int) else (p : Int) - 2 ^ 64

/-- Loop body of `dwarf.ReadsLEB128`.  The `int64` accumulator is carried as
its 64-bit pattern `val`; the sign-extension step `val |= ^0 << (7*(pos+1))`
ORs in the pattern `2^64 - 2^(7*(pos+1))` (which is `0` once the shift count
reaches 64, as in Go). -/
def ReadsLEB128go : List Nat → Nat → Nat → Int × Nat
  | [], pos, val => (toInt64 val, pos + 1)
  | b :: rest, pos, val =>
    let t := if 7 * pos < 64 then b % 128 * 2 ^ (7 * pos) % 2 ^ 64 else 0
    let v := (val + t) % 2 ^ 64
    if b % 256 < 128 then
      (toInt64
        (if 64 ≤ b % 128 then
          v ||| (if 7 * (pos + 1) < 64 then 2 ^ 64 - 2 ^ (7 * (pos + 1)) else 0)
        else v), pos + 1)
    else ReadsLEB128go rest (pos + 1) v

/-- Embeds `dwarf.ReadsLEB128` (returns decoded `int64` and byte count). -/
def ReadsLEB128 (bytes : List Nat) : Int × Nat :=
  ReadsLEB128go bytes 0 0

/-- Canonical (minimal-length) unsigned LEB128 encoding of `n`; the
specification side of the round-trip claim. -/
def encodeULEB128 (n : Nat) : List Nat :=
  if n < 128 then [n] else (n % 128 + 128) :: encodeULEB128 (n / 128)
termination_by n
decreasing_by exact Nat.div_lt_self (by omega) (by omega)

/-- Canonical signed LEB128 encoder, fuel-bounded: emit the low seven bits,
arithmetically shift right by seven (`(n - n % 128) / 128`, an exact
division), and stop once the remaining value is `0` with the sign bit of the
emitted byte clear, or `-1` with it set. -/
def encodeSLEB128Aux : Nat → Int → List Nat
  | 0, _ => []
  | fuel + 1, n =>
    if ((n - n % 128) / 128 = 0 ∧ (n % 128).toNat < 64) ∨
        ((n - n % 128) / 128 = -1 ∧ 64 ≤ (n % 128).toNat) then
      [(n % 128).toNat]
    else ((n % 128).toNat + 128) :: encodeSLEB128Aux fuel ((n - n % 128) / 128)

/-- Canonical signed LEB128 encoding; nine bytes suffice for every signed
value in `[-2^62, 2^62)`, the range of the round-trip claim. -/
def encodeSLEB128 (n : Int) : List Nat :=
  encodeSLEB128Aux 9 n

lemma pow7succ (p : Nat) : (2 : Nat) ^ (7 * (p + 1)) = 2 ^ (7 * p) * 128 := by
  rw [Nat.mul_succ, pow_add]
  norm_num

/-- ORing a number below `2^s` with a multiple of `2^s` is addition. -/
lemma lor_of_lt {a s : Nat} (m : Nat) (h : a < 2 ^ s) :
    a ||| 2 ^ s * m = a + 2 ^ s * m := by
  have hadd : a + 2 ^ s * m = 2 ^ s * m + a := Nat.add_comm _ _
  apply Nat.eq_of_testBit_eq
  intro i
  rw [Nat.testBit_lor, hadd, Nat.testBit_mul_pow_two_add m h i]
  have h0 : (2 ^ s * m).testBit i =
      if i < s then Nat.testBit 0 i else m.testBit (i - s) := by
    simpa using
      Nat.testBit_mul_pow_two_add m (Nat.pos_pow_of_pos s (by norm_num)) i
  rcases lt_or_ge i s with hi | hi
  · simp [h0, hi]
  · have ha : a.testBit i = false :=
      Nat.testBit_lt_two_pow
        (lt_of_lt_of_le h (Nat.pow_le_pow_right (by norm_num) hi))
    simp [h0, ha, Nat.not_lt.mpr hi]

lemma uleb_roundtrip_aux :
    ∀ n pos val, 7 * pos < 64 → val + n * 2 ^ (7 * pos) < 2 ^ 64 →
      ReaduLEB128go (encodeULEB128 n) pos val =
        (val + n * 2 ^ (7 * pos), pos + (encodeULEB128 n).length) := by
  intro n
  induction n using Nat.strong_induction_on with
  | _ n ih =>
    intro pos val h7 hlt
    by_cases hn : n < 128
    · rw [encodeULEB128, if_pos hn]
      have hb : n % 256 = n := Nat.mod_eq_of_lt (by omega)
      have hb7 : n % 128 = n := Nat.mod_eq_of_lt hn
      have ht : n * 2 ^ (7 * pos) % 2 ^ 64 = n * 2 ^ (7 * pos) :=
        Nat.mod_eq_of_lt (by omega)
      have hv : (val + n * 2 ^ (7 * pos)) % 2 ^ 64 = val + n * 2 ^ (7 * pos) :=
        Nat.mod_eq_of_lt hlt
      simp only [ReaduLEB128go, hb, hb7, if_pos h7, ht, hv, if_pos (show n < 128 from hn)]
      simp
    · rw [encodeULEB128, if_neg hn]
      push_neg at hn
      have hmono : n % 128 * 2 ^ (7 * pos) ≤ n * 2 ^ (7 * pos) :=
        Nat.mul_le_mul_right _ (Nat.mod_le _ _)
      have hb : (n % 128 + 128) % 256 = n % 128 + 128 :=
        Nat.mod_eq_of_lt (by omega)
      have hb7 : (n % 128 + 128) % 128 = n % 128 := by omega
      have ht : n % 128 * 2 ^ (7 * pos) % 2 ^ 64 = n % 128 * 2 ^ (7 * pos) :=
        Nat.mod_eq_of_lt (by omega)
      have hv : (val + n % 128 * 2 ^ (7 * pos)) % 2 ^ 64 =
          val + n % 128 * 2 ^ (7 * pos) := Nat.mod_eq_of_lt (by omega)
      have hsplit : n % 128 * 2 ^ (7 * pos) + n / 128 * 2 ^ (7 * (pos + 1)) =
          n * 2 ^ (7 * pos) := by
        rw [pow7succ]
        have h1 : n % 128 + 128 * (n / 128) = n := Nat.mod_add_div n 128
        calc n % 128 * 2 ^ (7 * pos) + n / 128 * (2 ^ (7 * pos) * 128)
            = (n % 128 + 128 * (n / 128)) * 2 ^ (7 * pos) := by ring
          _ = n * 2 ^ (7 * pos) := by rw [h1]
      have h7s : 7 * (pos + 1) < 64 := by
        have hpow : (2 : Nat) ^ (7 * (pos + 1)) < 2 ^ 64 := by
          calc (2 : Nat) ^ (7 * (pos + 1)) = 2 ^ (7 * pos) * 128 := pow7succ pos
            _ ≤ n * 2 ^ (7 * pos) := by
                rw [Nat.mul_comm]
                exact Nat.mul_le_mul_right _ hn
            _ ≤ val + n * 2 ^ (7 * pos) := Nat.le_add_left _ _
            _ < 2 ^ 64 := hlt
        exact (Nat.pow_lt_pow_iff_right (by norm_num)).mp hpow
      have hrec := ih (n / 128) (Nat.div_lt_self (by omega) (by omega))
        (pos + 1) (val + n % 128 * 2 ^ (7 * pos)) h7s (by omega)
      simp only [ReaduLEB128go, hb, hb7, if_pos h7, ht, hv,
        if_neg (show ¬(n % 128 + 128 < 128) by omega)]
      rw [hrec]
      simp only [Prod.mk.injEq]
      refine ⟨by omega, ?_⟩
      simp only [List.length_cons]
      omega

lemma sleb_single (n : Int) (pos val : Nat) (h1 : -64 ≤ n) (h2 : n < 64)
    (h7 : 7 * (pos + 1) ≤ 63) (hv : val < 2 ^ (7 * pos)) :
    ReadsLEB128go [(n % 128).toNat] pos val =
      ((val : Int) + n * 2 ^ (7 * pos), pos + 1) := by
  have hb127 : (n % 128).toNat < 128 := by omega
  set b := (n % 128).toNat with hbdef
  have hmono : (2 : Nat) ^ (7 * (pos + 1)) ≤ 2 ^ 63 :=
    Nat.pow_le_pow_right (by norm_num) (by omega)
  have hvb : val + b * 2 ^ (7 * pos) < 2 ^ (7 * (pos + 1)) := by
    rw [pow7succ]
    calc val + b * 2 ^ (7 * pos) < 2 ^ (7 * pos) + 127 * 2 ^ (7 * pos) := by
          have : b * 2 ^ (7 * pos) ≤ 127 * 2 ^ (7 * pos) :=
            Nat.mul_le_mul_right _ (by omega)
          omega
      _ = 2 ^ (7 * pos) * 128 := by ring
  have ht : b * 2 ^ (7 * pos) % 2 ^ 64 = b * 2 ^ (7 * pos) :=
    Nat.mod_eq_of_lt (by omega)
  have hvmod : (val + b * 2 ^ (7 * pos)) % 2 ^ 64 = val + b * 2 ^ (7 * pos) :=
    Nat.mod_eq_of_lt (by omega)
  have hb256 : b % 256 = b := Nat.mod_eq_of_lt (by omega)
  have hb128 : b % 128 = b := Nat.mod_eq_of_lt hb127
  simp only [ReadsLEB128go, hb256, hb128, if_pos (show 7 * pos < 64 by omega),
    ht, hvmod, if_pos (show b < 128 from hb127)]
  rcases le_or_lt 0 n with hpos | hneg
  · have hbn : (b : Int) = n := by omega
    have hblt : ¬ 64 ≤ b := by omega
    rw [if_neg hblt]
    have : toInt64 (val + b * 2 ^ (7 * pos)) = ((val + b * 2 ^ (7 * pos) : Nat) : Int) := by
      unfold toInt64
      rw [if_pos (by omega)]
    rw [this]
    simp only [Prod.mk.injEq]
    refine ⟨?_, by trivial⟩
    push_cast
    rw [hbn]
  · have hbn : (b : Int) = n + 128 := by omega
    have hbge : 64 ≤ b := by omega
    rw [if_pos hbge, if_pos (show 7 * (pos + 1) < 64 by omega)]
    have hmask : (2 : Nat) ^ 64 - 2 ^ (7 * (pos + 1)) =
        2 ^ (7 * (pos + 1)) * (2 ^ (64 - 7 * (pos + 1)) - 1) := by
      rw [Nat.mul_sub, Nat.mul_one, ← pow_add]
      congr 2
      omega
    rw [hmask, lor_of_lt _ hvb, ← hmask]
    have hge : 2 ^ 63 ≤ val + b * 2 ^ (7 * pos) + (2 ^ 64 - 2 ^ (7 * (pos + 1))) := by
      have h64 : (2 : Nat) ^ (7 * (pos + 1)) ≤ 2 ^ 63 := hmono
      have : (2 : Nat) ^ 63 ≤ 2 ^ 64 - 2 ^ 63 := by norm_num
      omega
    have : toInt64 (val + b * 2 ^ (7 * pos) + (2 ^ 64 - 2 ^ (7 * (pos + 1)))) =
        ((val + b * 2 ^ (7 * pos) + (2 ^ 64 - 2 ^ (7 * (pos + 1))) : Nat) : Int) - 2 ^ 64 := by
      unfold toInt64
      rw [if_neg (by omega)]
    rw [this]
    simp only [Prod.mk.injEq]
    refine ⟨?_, by trivial⟩
    have hle : (2 : Nat) ^ (7 * (pos + 1)) ≤ 2 ^ 64 :=
      Nat.pow_le_pow_right (by norm_num) (by omega)
    rw [Nat.cast_add, Nat.cast_add, Nat.cast_sub hle]
    push_cast
    have hp : (2 : Int) ^ (7 * (pos + 1)) = 2 ^ (7 * pos) * 128 := by
      rw [Nat.mul_succ, pow_add]
      norm_num
    rw [hbn, hp]
    ring

lemma sleb_roundtrip_aux :
    ∀ fuel (n : Int) pos val,
      -(2 ^ (7 * fuel + 6)) ≤ n → n < 2 ^ (7 * fuel + 6) →
      7 * (pos + fuel + 1) ≤ 63 → val < 2 ^ (7 * pos) →
      ReadsLEB128go (encodeSLEB128Aux (fuel + 1) n) pos val =
        ((val : Int) + n * 2 ^ (7 * pos),
          pos + (encodeSLEB128Aux (fuel + 1) n).length) := by
  intro fuel
  induction fuel with
  | zero =>
    intro n pos val hlo hhi h7 hv
    have hcond : ((n - n % 128) / 128 = 0 ∧ (n % 128).toNat < 64) ∨
        ((n - n % 128) / 128 = -1 ∧ 64 ≤ (n % 128).toNat) := by
      norm_num at hlo hhi
      omega
    rw [encodeSLEB128Aux, if_pos hcond]
    have := sleb_single n pos val (by norm_num at hlo; omega)
      (by norm_num at hhi; omega) (by omega) hv
    rw [this]
    rfl
  | succ fuel ih =>
    intro n pos val hlo hhi h7 hv
    rw [encodeSLEB128Aux]
    by_cases hcond : ((n - n % 128) / 128 = 0 ∧ (n % 128).toNat < 64) ∨
        ((n - n % 128) / 128 = -1 ∧ 64 ≤ (n % 128).toNat)
    · rw [if_pos hcond]
      have hrange : -64 ≤ n ∧ n < 64 := by omega
      have := sleb_single n pos val hrange.1 hrange.2 (by omega) hv
      rw [this]
      rfl
    · rw [if_neg hcond]
      set b := (n % 128).toNat with hbdef
      set n2 := (n - n % 128) / 128 with hn2def
      have hb127 : b < 128 := by omega
      have h128n2 : 128 * n2 = n - n % 128 := by omega
      have hvb : val + b * 2 ^ (7 * pos) < 2 ^ (7 * (pos + 1)) := by
        rw [pow7succ]
        have : b * 2 ^ (7 * pos) ≤ 127 * 2 ^ (7 * pos) :=
          Nat.mul_le_mul_right _ (by omega)
        have h1 : val < 2 ^ (7 * pos) := hv
        calc val + b * 2 ^ (7 * pos) < 2 ^ (7 * pos) + 127 * 2 ^ (7 * pos) := by omega
          _ = 2 ^ (7 * pos) * 128 := by ring
      have hvb64 : val + b * 2 ^ (7 * pos) < 2 ^ 64 := by
        have : (2 : Nat) ^ (7 * (pos + 1)) ≤ 2 ^ 63 :=
          Nat.pow_le_pow_right (by norm_num) (by omega)
        omega
      have ht : b * 2 ^ (7 * pos) % 2 ^ 64 = b * 2 ^ (7 * pos) :=
        Nat.mod_eq_of_lt (by omega)
      have hvmod : (val + b * 2 ^ (7 * pos)) % 2 ^ 64 = val + b * 2 ^ (7 * pos) :=
        Nat.mod_eq_of_lt hvb64
      have hb256 : (b + 128) % 256 = b + 128 := Nat.mod_eq_of_lt (by omega)
      have hb128 : (b + 128) % 128 = b := by omega
      have hpowExp : (2 : Int) ^ (7 * (fuel + 1) + 6) = 128 * 2 ^ (7 * fuel + 6) := by
        have : 7 * (fuel + 1) + 6 = 7 + (7 * fuel + 6) := by ring
        rw [this, pow_add]
        norm_num
      have hn2lo : -(2 ^ (7 * fuel + 6)) ≤ n2 := by
        have := hlo
        rw [hpowExp] at this
        omega
      have hn2hi : n2 < 2 ^ (7 * fuel + 6) := by
        have := hhi
        rw [hpowExp] at this
        omega
      have hrec := ih n2 (pos + 1) (val + b * 2 ^ (7 * pos))
        hn2lo hn2hi (by omega) hvb
      simp only [ReadsLEB128go, hb256, hb128, if_pos (show 7 * pos < 64 by omega),
        ht, hvmod, if_neg (show ¬(b + 128 < 128) by omega)]
      rw [hrec]
      simp only [Prod.mk.injEq]
      constructor
      · have hbI : (b : Int) = n % 128 := by omega
        have hpI : (2 : Int) ^ (7 * (pos + 1)) = 2 ^ (7 * pos) * 128 := by
          rw [Nat.mul_succ, pow_add]
          norm_num
        push_cast
        rw [hbI, hpI]
        have h128I : (128 : Int) * n2 = n - n % 128 := by exact_mod_cast h128n2
        nlinarith [h128I]
      · simp [List.length_cons]
        omega

lemma uleb_all_continuation :
    ∀ (bs : List Nat) (pos val : Nat), (∀ b ∈ bs, 128 ≤ b % 256) →
      (ReaduLEB128go bs pos val).2 = pos + bs.length + 1 := by
  intro bs
  induction bs with
  | nil => intro pos val _; rfl
  | cons b rest ih =>
    intro pos val h
    have hb : 128 ≤ b % 256 := h b (List.mem_cons_self b rest)
    simp only [ReaduLEB128go, if_neg (show ¬ b % 256 < 128 by omega)]
    rw [ih (pos + 1) _ (fun x hx => h x (List.mem_cons_of_mem b hx))]
    simp only [List.length_cons]
    omega

/-- C4: decoding the canonical unsigned LEB128 encoding of any `n < 2^63`
yields `n` and the encoding's byte count; the signed decoder likewise
inverts the canonical encoding on `[-2^62, 2^62)`; and the S2 vectors hold:
`[0x00] -> 0`, `[0x7F] -> 127`, `[0x80,0x01] -> 128`,
`[0xE5,0x8E,0x26] -> 624485`, signed `[0xC0,0x00] -> 64` and
`[0x9B,0xF1,0x59] -> -624485`. -/
theorem leb128_decode_inverts_canonical_encode :
    (∀ n : Nat, n < 2 ^ 63 →
      ReaduLEB128 (encodeULEB128 n) = (n, (encodeULEB128 n).length)) ∧
    (∀ m : Int, -(2 ^ 62) ≤ m → m < 2 ^ 62 →
      ReadsLEB128 (encodeSLEB128 m) = (m, (encodeSLEB128 m).length)) ∧
    ReaduLEB128 [0x00] = (0, 1) ∧ ReaduLEB128 [0x7F] = (127, 1) ∧
    ReaduLEB128 [0x80, 0x01] = (128, 2) ∧
    ReaduLEB128 [0xE5, 0x8E, 0x26] = (624485, 3) ∧
    ReadsLEB128 [0xC0, 0x00] = (64, 2) ∧
    ReadsLEB128 [0x9B, 0xF1, 0x59] = (-624485, 3) := by
  refine ⟨?_, ?_, by decide, by decide, by decide, by decide, by decide, by decide⟩
  · intro n hn
    have h := uleb_roundtrip_aux n 0 0 (by norm_num) (by simpa using hn.trans (by norm_num))
    simpa using h
  · intro m hlo hhi
    have h := sleb_roundtrip_aux 8 m 0 0 (by norm_num at hlo ⊢; omega)
      (by norm_num at hhi ⊢; omega) (by norm_num) (by norm_num)
    unfold encodeSLEB128
    simpa using h

/-- Witness for C4 at concrete inputs. -/
theorem leb128_decode_inverts_canonical_encode_witness :
    ReaduLEB128 (encodeULEB128 624485) = (624485, (encodeULEB128 624485).length) ∧
    ReadsLEB128 (encodeSLEB128 (-624485)) =
      (-624485, (encodeSLEB128 (-624485)).length) :=
  ⟨leb128_decode_inverts_canonical_encode.1 624485 (by norm_num),
   leb128_decode_inverts_canonical_encode.2.1 (-624485) (by norm_num) (by norm_num)⟩

/-- C5 counterexample: on the input `[0x80]`, whose last byte has the
continuation bit set, `ReaduLEB128` does not fail — it has no error result
at all — and returns decoded value `0` with byte count `2` (one past the
input's length). -/
theorem uleb128_truncated_input_returns_value :
    ReaduLEB128 [0x80] = (0, 2) ∧ [(0x80 : Nat)].length = 1 := by
  decide

/-- C5 amended: when every input byte has the continuation bit set (so the
decoder never finds a terminating byte and runs off the end of the slice),
`ReaduLEB128` returns normally with byte count `length + 1`; truncation is
never reported as an error. -/
theorem uleb128_truncated_input_count :
    ∀ bs : List Nat, (∀ b ∈ bs, 128 ≤ b % 256) →
      (ReaduLEB128 bs).2 = bs.length + 1 := by
  intro bs h
  have := uleb_all_continuation bs 0 0 h
  simpa using this

/-- Witness for the amended C5 statement. -/
theorem uleb128_truncated_input_count_witness :
    (ReaduLEB128 [0x80, 0xFF]).2 = 3 :=
  uleb128_truncated_input_count [0x80, 0xFF] (by decide)

/-- One attribute specification of an abbreviation (src/dwarf/dwarf.go
`AbbrevAttr`); `Const` is read by `ReaduLEB128` in the source, hence a Nat. -/
structure AbbrevAttr where
  Attr : Nat
  Form : Nat
  Const : Nat
deriving Repr, DecidableEq

/-- One abbreviation table entry (src/dwarf/dwarf.go `Abbrev`). -/
structure Abbrev where
  Id : Nat
  Tag : Nat
  HasChildren : Bool
  Attrs : List AbbrevAttr
deriving Repr, DecidableEq

/-- `DW_FORM_implicit_const` (src/dwarf/dwarf.go). -/
def DW_FORM_implicit_const : Nat := 0x21

/-- Inner attribute loop of `dwarf.ReadAbbrevTbl`: repeatedly read
(attr, form) pairs as unsigned LEB128, stop on the exact pair (0, 0) without
appending it, and read one extra unsigned LEB128 constant when the form is
`DW_FORM_implicit_const`.  Each `bytes[pos:]` slice expression panics
(`none`) when `pos` exceeds the length; `fuel` bounds the iterations. -/
def readAbbrevAttrsAux : Nat → List Nat → Nat → List AbbrevAttr →
    Option (List AbbrevAttr × Nat)
  | 0, _, _, _ => none
  | fuel + 1, bytes, pos, acc =>
    match sliceFrom bytes pos with
    | none => none
    | some s1 =>
      let r1 := ReaduLEB128 s1
      let pos1 := pos + r1.2
      match sliceFrom bytes pos1 with
      | none => none
      | some s2 =>
        let r2 := ReaduLEB128 s2
        let pos2 := pos1 + r2.2
        if r1.1 = 0 ∧ r2.1 = 0 then some (acc, pos2)
        else if r2.1 = DW_FORM_implicit_const then
          match sliceFrom bytes pos2 with
          | none => none
          | some s3 =>
            let r3 := ReaduLEB128 s3
            readAbbrevAttrsAux fuel bytes (pos2 + r3.2)
              (acc ++ [⟨r1.1, r2.1, r3.1⟩])
        else readAbbrevAttrsAux fuel bytes pos2 (acc ++ [⟨r1.1, r2.1, 0⟩])

/-- Outer loop of `dwarf.ReadAbbrevTbl`: while `pos < len`, read an
abbreviation code (stop on 0), tag, has-children byte (`bytes[pos]`
indexing panics out of range), then the attribute list. -/
def readAbbrevTblAux : Nat → List Nat → Nat → List Abbrev → Option (List Abbrev)
  | 0, _, _, _ => none
  | fuel + 1, bytes, pos, acc =>
    if pos < bytes.length then
      let r1 := ReaduLEB128 (bytes.drop pos)
      let pos1 := pos + r1.2
      if r1.1 = 0 then some acc
      else
        match sliceFrom bytes pos1 with
        | none => none
        | some s2 =>
          let r2 := ReaduLEB128 s2
          let pos2 := pos1 + r2.2
          match bytes.get? pos2 with
          | none => none
          | some hc =>
            match readAbbrevAttrsAux (bytes.length + 2) bytes (pos2 + 1) [] with
            | none => none
            | some (attrs, pos3) =>
              readAbbrevTblAux fuel bytes pos3
                (acc ++ [⟨r1.1, r2.1, hc % 256 = 1, attrs⟩])
    else some acc

/-- Embeds `dwarf.ReadAbbrevTbl`.  The fuel `bytes.length + 1` covers every
terminating Go execution since the outer loop strictly advances `pos`. -/
def ReadAbbrevTbl (bytes : List Nat) : Option (List Abbrev) :=
  readAbbrevTblAux (bytes.length + 1) bytes 0 []

lemma readAbbrevAttrsAux_inv :
    ∀ fuel bytes pos acc res,
      readAbbrevAttrsAux fuel bytes pos acc = some res →
      (∀ p ∈ acc, ¬(p.Attr = 0 ∧ p.Form = 0)) →
      ∀ p ∈ res.1, ¬(p.Attr = 0 ∧ p.Form = 0) := by
  intro fuel
  induction fuel with
  | zero => intro bytes pos acc res h; simp [readAbbrevAttrsAux] at h
  | succ fuel ih =>
    intro bytes pos acc res h hacc
    rw [readAbbrevAttrsAux] at h
    rcases hs1 : sliceFrom bytes pos with _ | s1
    · rw [hs1] at h; exact absurd h (by simp)
    rw [hs1] at h
    simp only at h
    rcases hs2 : sliceFrom bytes (pos + (ReaduLEB128 s1).2) with _ | s2
    · rw [hs2] at h; exact absurd h (by simp)
    rw [hs2] at h
    simp only at h
    by_cases hz : (ReaduLEB128 s1).1 = 0 ∧ (ReaduLEB128 s2).1 = 0
    · rw [if_pos hz] at h
      cases h
      exact hacc
    · rw [if_neg hz] at h
      by_cases hic : (ReaduLEB128 s2).1 = DW_FORM_implicit_const
      · rw [if_pos hic] at h
        rcases hs3 : sliceFrom bytes (pos + (ReaduLEB128 s1).2 + (ReaduLEB128 s2).2)
            with _ | s3
        · rw [hs3] at h; exact absurd h (by simp)
        rw [hs3] at h
        simp only at h
        refine ih bytes _ _ res h ?_
        intro p hp
        rcases List.mem_append.mp hp with hp | hp
        · exact hacc p hp
        · have : p = ⟨(ReaduLEB128 s1).1, (ReaduLEB128 s2).1, (ReaduLEB128 s3).1⟩ := by
            simpa using hp
          subst this
          simpa using hz
      · rw [if_neg hic] at h
        refine ih bytes _ _ res h ?_
        intro p hp
        rcases List.mem_append.mp hp with hp | hp
        · exact hacc p hp
        · have : p = ⟨(ReaduLEB128 s1).1, (ReaduLEB128 s2).1, 0⟩ := by
            simpa using hp
          subst this
          simpa using hz

lemma readAbbrevTblAux_inv :
    ∀ fuel bytes pos acc tbl,
      readAbbrevTblAux fuel bytes pos acc = some tbl →
      (∀ a ∈ acc, a.Id ≠ 0 ∧ ∀ p ∈ a.Attrs, ¬(p.Attr = 0 ∧ p.Form = 0)) →
      ∀ a ∈ tbl, a.Id ≠ 0 ∧ ∀ p ∈ a.Attrs, ¬(p.Attr = 0 ∧ p.Form = 0) := by
  intro fuel
  induction fuel with
  | zero => intro bytes pos acc tbl h; simp [readAbbrevTblAux] at h
  | succ fuel ih =>
    intro bytes pos acc tbl h hacc
    rw [readAbbrevTblAux] at h
    by_cases hlen : pos < bytes.length
    · rw [if_pos hlen] at h
      simp only at h
      by_cases hz : (ReaduLEB128 (bytes.drop pos)).1 = 0
      · rw [if_pos hz] at h
        cases h
        exact hacc
      · rw [if_neg hz] at h
        rcases hs2 : sliceFrom bytes (pos + (ReaduLEB128 (bytes.drop pos)).2)
            with _ | s2
        · rw [hs2] at h; exact absurd h (by simp)
        rw [hs2] at h
        simp only at h
        rcases hhc : bytes.get? (pos + (ReaduLEB128 (bytes.drop pos)).2 +
            (ReaduLEB128 s2).2) with _ | hc
        · rw [hhc] at h; exact absurd h (by simp)
        rw [hhc] at h
        simp only at h
        rcases hat : readAbbrevAttrsAux (bytes.length + 2) bytes
            (pos + (ReaduLEB128 (bytes.drop pos)).2 + (ReaduLEB128 s2).2 + 1) []
            with _ | attrsRes
        · rw [hat] at h; exact absurd h (by simp)
        rw [hat] at h
        obtain ⟨attrs, pos3⟩ := attrsRes
        simp only at h
        refine ih bytes _ _ tbl h ?_
        intro a ha
        rcases List.mem_append.mp ha with ha | ha
        · exact hacc a ha
        · have heq : a = ⟨(ReaduLEB128 (bytes.drop pos)).1, (ReaduLEB128 s2).1,
              hc % 256 = 1, attrs⟩ := by simpa using ha
          subst heq
          refine ⟨hz, ?_⟩
          exact readAbbrevAttrsAux_inv _ bytes _ [] (attrs, pos3) hat (by simp)
    · rw [if_neg hlen] at h
      cases h
      exact hacc

/-- C10: every abbreviation returned by `ReadAbbrevTbl` has a nonzero code,
and no attribute list contains the (0, 0) terminator pair: the reader stops
at the first zero code and the (0, 0) pair ends an entry without being
appended. -/
theorem readAbbrevTbl_no_zero_code_no_terminator_pair :
    ∀ bytes tbl, ReadAbbrevTbl bytes = some tbl →
      ∀ a ∈ tbl, a.Id ≠ 0 ∧ ∀ p ∈ a.Attrs, ¬(p.Attr = 0 ∧ p.Form = 0) := by
  intro bytes tbl h
  exact readAbbrevTblAux_inv _ bytes 0 [] tbl h (by simp)

/-- Witness for C10 on a concrete table: one entry with code 1, tag 0x11,
children flag 1, one (attr 3, form 8) pair, the (0,0) terminator, and the
closing zero code. -/
theorem readAbbrevTbl_no_zero_code_witness :
    (Abbrev.mk 1 0x11 true [⟨3, 8, 0⟩]).Id ≠ 0 ∧
      ∀ p ∈ (Abbrev.mk 1 0x11 true [⟨3, 8, 0⟩]).Attrs,
        ¬(p.Attr = 0 ∧ p.Form = 0) :=
  readAbbrevTbl_no_zero_code_no_terminator_pair [1, 0x11, 1, 3, 8, 0, 0, 0]
    [Abbrev.mk 1 0x11 true [⟨3, 8, 0⟩]] (by decide)
    (Abbrev.mk 1 0x11 true [⟨3, 8, 0⟩]) (by decide)

/-- `DWARF_32BIT_FORMAT` (src/dwarf/dwarf.go). -/
def DWARF_32BIT_FORMAT : Nat := 0x01

/-- `DWARF_64BIT_FORMAT` (src/dwarf/dwarf.go). -/
def DWARF_64BIT_FORMAT : Nat := 0x02

/-- Compilation-unit header (src/dwarf/dwarf.go `Dwarf32CuHdr`); all fields
start at the Go zero value. -/
structure Dwarf32CuHdr where
  UnitLength : Nat := 0
  DwarfFormat : Nat := 0
  Version : Nat := 0
  UnitType : Nat := 0
  DebugAbbrevOffset : Nat := 0
  AddressSize : Nat := 0
  UnitID : Nat := 0
  TypeSignature : Nat := 0
  TypeOffset : Nat := 0
deriving Repr, DecidableEq

/-- Embeds `dwarf.NewDwarf32Cuh`.  `debug_info[0:4]` panics below 4 bytes;
every `v, _ :=` fixed-width read discards its error (keeping the zero
value); byte indexing out of range panics; an unknown DWARF 5 unit type
panics ("not implemented").  In the type/split-type arm the source reads the
type signature twice (the second read, 8 bytes further on, wins) and, in the
32-bit format, reads a 4-byte type offset. -/
def NewDwarf32Cuh (debug_info : List Nat) : Option Dwarf32CuHdr :=
  if debug_info.length < 4 then none
  else
    let tmp := leNat 4 debug_info
    let fmt32 := tmp < 0xFFFFFF00
    let fmt := if fmt32 then DWARF_32BIT_FORMAT else DWARF_64BIT_FORMAT
    let ulenOpt := if fmt32 then some tmp else readU64D debug_info 4
    let off1 := if fmt32 then 4 else 12
    match ulenOpt with
    | none => none
    | some ulen =>
      match readU16D debug_info off1 with
      | none => none
      | some ver =>
        if ver < 5 then
          match readU32D debug_info (off1 + 2), debug_info.get? (off1 + 6) with
          | some abbrevOff, some addrSize =>
            some { UnitLength := ulen, DwarfFormat := fmt, Version := ver,
                   DebugAbbrevOffset := abbrevOff, AddressSize := addrSize % 256 }
          | _, _ => none
        else
          match debug_info.get? (off1 + 2), debug_info.get? (off1 + 3),
              readU32D debug_info (off1 + 4) with
          | some ut0, some addrSize, some abbrevOff =>
            let ut := ut0 % 256
            let base : Dwarf32CuHdr :=
              { UnitLength := ulen, DwarfFormat := fmt, Version := ver,
                UnitType := ut, DebugAbbrevOffset := abbrevOff,
                AddressSize := addrSize % 256 }
            if ut = 0x01 ∨ ut = 0x03 then some base
            else if ut = 0x04 ∨ ut = 0x05 then
              match readU64D debug_info (off1 + 8) with
              | none => none
              | some uid => some { base with UnitID := uid }
            else if ut = 0x02 ∨ ut = 0x06 then
              match readU64D debug_info (off1 + 8),
                  readU64D debug_info (off1 + 16) with
              | some _, some sig2 =>
                if fmt32 then
                  match readU32D debug_info (off1 + 16) with
                  | none => none
                  | some t =>
                    some { base with TypeSignature := sig2, TypeOffset := t }
                else
                  match readU64D debug_info (off1 + 16) with
                  | none => none
                  | some t =>
                    some { base with TypeSignature := sig2, TypeOffset := t }
              | _, _ => none
            else none
          | _, _, _ => none

/-- C6 counterexample: a unit whose first four bytes hold the reserved
unit-length value 0xFFFFFF00 is decoded without any error: the header is
returned with the 64-bit DWARF format selected and the next eight bytes as
the length, where the claim requires a fatal decode error on the reserved
range 0xFFFFFF00..0xFFFFFFFE. -/
theorem reserved_unit_length_accepted_as_64bit :
    leNat 4 [0x00, 0xFF, 0xFF, 0xFF] = 0xFFFFFF00 ∧
    NewDwarf32Cuh ([0x00, 0xFF, 0xFF, 0xFF] ++ [2, 0, 0, 0, 0, 0, 0, 0] ++
        [4, 0] ++ [0, 0, 0, 0] ++ [8]) =
      some { UnitLength := 2, DwarfFormat := DWARF_64BIT_FORMAT, Version := 4,
             DebugAbbrevOffset := 0, AddressSize := 8 } := by
  decide

/-- C6 amended: the first four bytes select the format with a single
comparison — every value below 0xFFFFFF00 means 32-bit DWARF with that value
as the unit length, and every value at or above 0xFFFFFF00 (the reserved
range 0xFFFFFF00..0xFFFFFFFE included, not only 0xFFFFFFFF) selects the
64-bit format with the next eight bytes as the length; no reserved value is
rejected. -/
theorem unit_length_format_detection :
    ∀ bs cuh, NewDwarf32Cuh bs = some cuh →
      (leNat 4 bs < 0xFFFFFF00 →
        cuh.DwarfFormat = DWARF_32BIT_FORMAT ∧ cuh.UnitLength = leNat 4 bs) ∧
      (0xFFFFFF00 ≤ leNat 4 bs →
        cuh.DwarfFormat = DWARF_64BIT_FORMAT ∧
        cuh.UnitLength = (FromLeToUInt64 (bs.drop 4)).getD 0) := by
  intro bs cuh h
  unfold NewDwarf32Cuh at h
  by_cases hlen : bs.length < 4
  · rw [if_pos hlen] at h
    exact absurd h (by simp)
  rw [if_neg hlen] at h
  simp only at h
  by_cases hfmt : leNat 4 bs < 0xFFFFFF00
  · rw [if_pos hfmt, if_pos hfmt, if_pos hfmt] at h
    refine ⟨fun _ => ?_, fun hge => absurd hfmt (by omega)⟩
    simp only at h
    rcases hv : readU16D bs 4 with _ | ver
    · rw [hv] at h; exact absurd h (by simp)
    rw [hv] at h
    simp only at h
    by_cases hver : ver < 5
    · rw [if_pos hver] at h
      rcases h32 : readU32D bs 6 with _ | ao
      · rw [h32] at h; exact absurd h (by simp)
      rcases hg : bs.get? 10 with _ | asz
      · rw [h32, hg] at h; exact absurd h (by simp)
      rw [h32, hg] at h
      simp only at h
      cases h
      exact ⟨rfl, rfl⟩
    · rw [if_neg hver] at h
      rcases hg2 : bs.get? 6 with _ | ut0
      · rw [hg2] at h; exact absurd h (by simp)
      rcases hg3 : bs.get? 7 with _ | asz
      · rw [hg2, hg3] at h; exact absurd h (by simp)
      rcases h32 : readU32D bs 8 with _ | ao
      · rw [hg2, hg3, h32] at h; exact absurd h (by simp)
      rw [hg2, hg3, h32] at h
      simp only at h
      split at h
      · cases h; exact ⟨rfl, rfl⟩
      · split at h
        · rcases h64 : readU64D bs 12 with _ | uid
          · rw [h64] at h; exact absurd h (by simp)
          rw [h64] at h
          simp only at h
          cases h
          exact ⟨rfl, rfl⟩
        · split at h
          · rcases h64a : readU64D bs 12 with _ | s1
            · rw [h64a] at h; exact absurd h (by simp)
            rcases h64b : readU64D bs 20 with _ | s2
            · rw [h64a, h64b] at h; exact absurd h (by simp)
            rw [h64a, h64b] at h
            simp only [if_pos hfmt] at h
            rcases h32b : readU32D bs 20 with _ | t
            · rw [h32b] at h; exact absurd h (by simp)
            rw [h32b] at h
            simp only at h
            cases h
            exact ⟨rfl, rfl⟩
          · exact absurd h (by simp)
  · rw [if_neg hfmt, if_neg hfmt, if_neg hfmt] at h
    refine ⟨fun hlt => absurd hlt hfmt, fun _ => ?_⟩
    rcases hu : readU64D bs 4 with _ | ulen
    · rw [hu] at h; exact absurd h (by simp)
    rw [hu] at h
    simp only at h
    have hulen : ulen = (FromLeToUInt64 (bs.drop 4)).getD 0 := by
      unfold readU64D sliceFrom at hu
      rw [if_pos (by omega)] at hu
      simpa using hu.symm
    rcases hv : readU16D bs 12 with _ | ver
    · rw [hv] at h; exact absurd h (by simp)
    rw [hv] at h
    simp only at h
    by_cases hver : ver < 5
    · rw [if_pos hver] at h
      rcases h32 : readU32D bs 14 with _ | ao
      · rw [h32] at h; exact absurd h (by simp)
      rcases hg : bs.get? 18 with _ | asz
      · rw [h32, hg] at h; exact absurd h (by simp)
      rw [h32, hg] at h
      simp only at h
      cases h
      exact ⟨rfl, hulen⟩
    · rw [if_neg hver] at h
      rcases hg2 : bs.get? 14 with _ | ut0
      · rw [hg2] at h; exact absurd h (by simp)
      rcases hg3 : bs.get? 15 with _ | asz
      · rw [hg2, hg3] at h; exact absurd h (by simp)
      rcases h32 : readU32D bs 16 with _ | ao
      · rw [hg2, hg3, h32] at h; exact absurd h (by simp)
      rw [hg2, hg3, h32] at h
      simp only at h
      split at h
      · cases h; exact ⟨rfl, hulen⟩
      · split at h
        · rcases h64 : readU64D bs 20 with _ | uid
          · rw [h64] at h; exact absurd h (by simp)
          rw [h64] at h
          simp only at h
          cases h
          exact ⟨rfl, hulen⟩
        · split at h
          · rcases h64a : readU64D bs 20 with _ | s1
            · rw [h64a] at h; exact absurd h (by simp)
            rcases h64b : readU64D bs 28 with _ | s2
            · rw [h64a, h64b] at h; exact absurd h (by simp)
            rw [h64a, h64b] at h
            simp only [if_neg hfmt] at h
            cases h
            exact ⟨rfl, hulen⟩
          · exact absurd h (by simp)

/-- A concrete 32-bit CU header used by the C6 witness. -/
def cuh32ex : Dwarf32CuHdr :=
  { UnitLength := 7, DwarfFormat := DWARF_32BIT_FORMAT, Version := 4,
    DebugAbbrevOffset := 0, AddressSize := 8 }

/-- Witness for the amended C6 statement on the 32-bit branch. -/
theorem unit_length_format_detection_witness :
    cuh32ex.DwarfFormat = DWARF_32BIT_FORMAT ∧
    cuh32ex.UnitLength = leNat 4 [7, 0, 0, 0, 4, 0, 0, 0, 0, 0, 8] :=
  (unit_length_format_detection [7, 0, 0, 0, 4, 0, 0, 0, 0, 0, 8] cuh32ex
    (by decide)).1 (by decide)

/-- C7 counterexample: inside the CU-header decode (called by
`ReadDebugInfo` on each CU), the 4-byte abbrev-offset read crosses the end
of the section (`FromLeToUInt32` fails with Truncated), yet the decode does
not abort: the error is discarded at the call site and the header is
returned with the zero value 0 in `DebugAbbrevOffset`. -/
theorem truncated_read_ignored_in_cu_header :
    FromLeToUInt32 (List.drop 8 [0, 0, 0, 0, 5, 0, 1, 8, 0xAA, 0xBB, 0xCC]) = none ∧
    NewDwarf32Cuh [0, 0, 0, 0, 5, 0, 1, 8, 0xAA, 0xBB, 0xCC] =
      some { UnitLength := 0, DwarfFormat := DWARF_32BIT_FORMAT, Version := 5,
             UnitType := 1, DebugAbbrevOffset := 0, AddressSize := 8 } := by
  decide

/-- C7 amended: every fixed-width reader fails with Truncated exactly when
the slice is shorter than the requested width, but the decoder's call sites
(`v, _ := binutil.FromLeToUIntNN(...)`) discard that error and continue with
the zero value; the error never aborts the decode (`ReadDebugInfo` returns
no error at all). -/
theorem fixed_width_truncated_iff_and_discarded :
    (∀ buf : List Nat,
      (FromLeToUInt16 buf = none ↔ buf.length < 2) ∧
      (FromLeToUInt32 buf = none ↔ buf.length < 4) ∧
      (FromLeToUInt64 buf = none ↔ buf.length < 8)) ∧
    (∀ (bs : List Nat) (off : Nat), off ≤ bs.length → bs.length < off + 4 →
      readU32D bs off = some 0) := by
  constructor
  · intro buf
    unfold FromLeToUInt16 FromLeToUInt32 FromLeToUInt64
    refine ⟨?_, ?_, ?_⟩ <;> split_ifs <;> simp_all
  · intro bs off h1 h2
    unfold readU32D sliceFrom
    rw [if_pos h1]
    have hd : bs.length - off < 4 := by omega
    simp [FromLeToUInt32, hd]

/-- Witness for the amended C7 statement. -/
theorem fixed_width_truncated_iff_and_discarded_witness :
    ((FromLeToUInt16 [42] = none ↔ [(42 : Nat)].length < 2) ∧
      (FromLeToUInt32 [42] = none ↔ [(42 : Nat)].length < 4) ∧
      (FromLeToUInt64 [42] = none ↔ [(42 : Nat)].length < 8)) ∧
    readU32D [1, 2, 3] 1 = some 0 :=
  ⟨fixed_width_truncated_iff_and_discarded.1 [42],
   fixed_width_truncated_iff_and_discarded.2 [1, 2, 3] 1 (by decide) (by decide)⟩

/-- Go slice indexing `xs[i]` (panic, i.e. `none`, when out of range).  The
explicit length test keeps evaluation cheap for the huge indexes produced by
uint64 wrap-around (`File - 1` at `File = 0`). -/
def goIdx {α : Type} (xs : List α) (i : Nat) : Option α :=
  if i < xs.length then xs[i]? else none

/-- File-name entry of a line header (src/dwarf/dwarf.go `FileNameInfo`). -/
structure FileNameInfo where
  Name : String := ""
  DirIdx : Nat := 0
  LastModified : Nat := 0
  Size : Nat := 0
deriving Repr, DecidableEq

/-- Line-program header (src/dwarf/dwarf.go `Dwarf32LineInfoHdr`).
`LineBase` is the Go int8, carried as an `Int`.  The DWARF 5 entry-format
bookkeeping fields, which are read only by `ReadLineInfo` (not embedded
here), are omitted; the remaining fields keep their Go zero defaults. -/
structure Dwarf32LineInfoHdr where
  UnitLength : Nat := 0
  DwarfFormat : Nat := 0
  Version : Nat := 0
  HeaderLength : Nat := 0
  AddressSize : Nat := 0
  SegmentSelectorSize : Nat := 0
  MinInstLength : Nat := 0
  MaxInstLength : Nat := 0
  DefaultIsStmt : Nat := 0
  LineBase : Int := 0
  LineRange : Nat := 0
  OpcodeBase : Nat := 0
  StdOpcodeLengths : List Nat := []
  IncludeDirs : List String := []
  Files : List FileNameInfo := []
deriving Repr, DecidableEq

/-- Line-number state-machine registers (src/dwarf/dwarf.go
`LineNumberStateMachine`). -/
structure LineNumberStateMachine where
  Address : Nat := 0
  OpIndex : Nat := 0
  File : Nat := 0
  Line : Nat := 0
  Column : Nat := 0
  IsStmt : Bool := false
  BasicBlock : Bool := false
  EndSequence : Bool := false
  PrologueEnd : Bool := false
  EpilogueBegin : Bool := false
  Isa : Nat := 0
  Discriminator : Nat := 0
deriving Repr, DecidableEq

/-- Embeds `dwarf.NewLnsm`: a zero-value machine with the listed registers
set; `EpilogueBegin` and `Discriminator` keep the Go zero value. -/
def NewLnsm (defaultIsStmt : Nat) : LineNumberStateMachine :=
  { Address := 0, OpIndex := 0, File := 1, Line := 1, Column := 0,
    IsStmt := defaultIsStmt = 1, BasicBlock := false, PrologueEnd := false,
    EndSequence := false, Isa := 0 }

/-- One row attached to a function (src/elf/elf.go `LineAddrInfo`). -/
structure LineAddrInfo where
  Line : Nat := 0
  Addr : Nat := 0
  IsStmt : Bool := false
  SrcDirName : String := ""
  SrcFileName : String := ""
deriving Repr, DecidableEq

/-- Per-function record (src/elf/elf.go `ElfFunctionInfo`); the Go map
`LineAddrs` is carried as an association list. -/
structure ElfFunctionInfo where
  Name : String := ""
  SrcDirName : String := ""
  SrcFileName : String := ""
  Addr : Nat := 0
  Size : Nat := 0
  SecName : String := ""
  LineAddrs : List (Nat × LineAddrInfo) := []
deriving Repr, DecidableEq

/-- The members of the object view (src/elf/elf.go `Elf64Object`) that the
correlator reads and writes. -/
structure ElfView where
  AddrFuncIdxMap : List (Nat × Nat) := []
  FuncsInfos : List ElfFunctionInfo := []
deriving Repr, DecidableEq

/-- Embeds `Elf64Object.GetFuncIdxByAddr`: a Go map lookup; `none` stands
for the `-1` returned when the address is absent. -/
def GetFuncIdxByAddr (e : ElfView) (addr : Nat) : Option Nat :=
  (e.AddrFuncIdxMap.find? (fun p => p.1 == addr)).map (fun p => p.2)

/-- Go map update `m[k] = v` on the association-list model. -/
def mapUpdate (m : List (Nat × LineAddrInfo)) (k : Nat) (v : LineAddrInfo) :
    List (Nat × LineAddrInfo) :=
  m.filter (fun p => !(p.1 == k)) ++ [(k, v)]

/-- Embeds `dwarf.addFuncAddrLineInfo`.  `Files[lnsm.File-1]` is indexed by
the Go uint64 `File - 1`, which wraps to `2^64 - 1` when `File = 0`; an
out-of-range index panics (`none`).  A failed function lookup returns with
the view unchanged.  Only the directory index depends on the version:
0-based from version 5, 1-based below (index 0 leaving the directory
empty). -/
def addFuncAddrLineInfo (lineInfoHdr : Dwarf32LineInfoHdr)
    (lnsm : LineNumberStateMachine) (funcAddr : Nat) (e : ElfView) :
    Option ElfView :=
  match goIdx lineInfoHdr.Files ((lnsm.File + (2 ^ 64 - 1)) % 2 ^ 64) with
  | none => none
  | some file =>
    match GetFuncIdxByAddr e funcAddr with
    | none => some e
    | some funcIdx =>
      match goIdx e.FuncsInfos funcIdx with
      | none => none
      | some f0 =>
        let f1 := { f0 with SrcDirName := "", SrcFileName := file.Name }
        let la : LineAddrInfo :=
          { Line := lnsm.Line, Addr := lnsm.Address, IsStmt := lnsm.IsStmt }
        if 5 ≤ lineInfoHdr.Version then
          match goIdx lineInfoHdr.IncludeDirs file.DirIdx with
          | none => none
          | some d =>
            let f2 :=
              { f1 with
                SrcDirName := d,
                LineAddrs := mapUpdate f1.LineAddrs lnsm.Line
                  ({ la with SrcDirName := d }) }
            some { e with FuncsInfos := e.FuncsInfos.set funcIdx f2 }
        else
          if file.DirIdx < 1 then
            let f2 :=
              { f1 with
                LineAddrs := mapUpdate f1.LineAddrs lnsm.Line la }
            some { e with FuncsInfos := e.FuncsInfos.set funcIdx f2 }
          else
            match goIdx lineInfoHdr.IncludeDirs (file.DirIdx - 1) with
            | none => none
            | some d =>
              let f2 :=
                { f1 with
                  SrcDirName := d,
                  LineAddrs := mapUpdate f1.LineAddrs lnsm.Line
                    ({ la with SrcDirName := d }) }
              some { e with FuncsInfos := e.FuncsInfos.set funcIdx f2 }

/-- Header for the C3 counterexample: DWARF version 5 with one file entry. -/
def hdrC3 : Dwarf32LineInfoHdr :=
  { Version := 5, Files := [{ Name := "f.c", DirIdx := 0 }],
    IncludeDirs := ["/d"] }

/-- Registers for the C3 counterexample: file register 0. -/
def lnsmC3 : LineNumberStateMachine :=
  { Address := 0x1000, File := 0, Line := 3, IsStmt := true }

/-- Object view for the C3 counterexample. -/
def elfC3 : ElfView :=
  { AddrFuncIdxMap := [(0x1000, 0)],
    FuncsInfos := [{ Name := "f", Addr := 0x1000, Size := 16 }] }

/-- C3 counterexample: under version 5 a file-name index of 0 is NOT valid —
the correlator always computes `Files[File - 1]`, so `File = 0` wraps to the
uint64 index `2^64 - 1` and panics, where the claim requires 0-based
indexing (selecting `Files[0]`) for version 5. -/
theorem v5_file_index_zero_panics :
    addFuncAddrLineInfo hdrC3 lnsmC3 0x1000 elfC3 = none ∧
    hdrC3.Version = 5 ∧ lnsmC3.File = 0 ∧ hdrC3.Files.length = 1 := by
  decide

/-- C3 amended: the row's file index selects into the line header's file
table using 1-based indexing (`Files[File - 1]`) under EVERY version,
version 5 included; an index of 0 is an error under every version.  Only
the directory index is version-dependent. -/
theorem file_index_one_based_every_version :
    ∀ (h : Dwarf32LineInfoHdr) (lnsm : LineNumberStateMachine) (fa : Nat)
      (e e2 : ElfView) (file : FileNameInfo) (idx : Nat) (f : ElfFunctionInfo),
      1 ≤ lnsm.File → lnsm.File < 2 ^ 64 →
      goIdx h.Files (lnsm.File - 1) = some file →
      GetFuncIdxByAddr e fa = some idx →
      goIdx e.FuncsInfos idx = some f →
      addFuncAddrLineInfo h lnsm fa e = some e2 →
      ∃ f2, goIdx e2.FuncsInfos idx = some f2 ∧ f2.SrcFileName = file.Name := by
  intro h lnsm fa e e2 file idx f h1 h2 hfile hidx hf hres
  have hwrap : (lnsm.File + (2 ^ 64 - 1)) % 2 ^ 64 = lnsm.File - 1 := by
    have : lnsm.File + (2 ^ 64 - 1) = (lnsm.File - 1) + 1 * 2 ^ 64 := by omega
    rw [this, Nat.add_mul_mod_self_right]
    exact Nat.mod_eq_of_lt (by omega)
  have hlt : idx < e.FuncsInfos.length := by
    unfold goIdx at hf
    by_contra hge
    rw [if_neg hge] at hf
    exact absurd hf (by simp)
  have hset : ∀ g : ElfFunctionInfo,
      goIdx (e.FuncsInfos.set idx g) idx = some g := by
    intro g
    unfold goIdx
    rw [if_pos (by rw [List.length_set]; exact hlt)]
    exact List.getElem?_set_self hlt
  unfold addFuncAddrLineInfo at hres
  rw [hwrap, hfile] at hres
  simp only at hres
  rw [hidx] at hres
  simp only at hres
  rw [hf] at hres
  simp only at hres
  by_cases hv : 5 ≤ h.Version
  · rw [if_pos hv] at hres
    rcases hd : goIdx h.IncludeDirs file.DirIdx with _ | d
    · rw [hd] at hres; exact absurd hres (by simp)
    rw [hd] at hres
    simp only at hres
    cases hres
    exact ⟨_, hset _, rfl⟩
  · rw [if_neg hv] at hres
    by_cases hdir : file.DirIdx < 1
    · rw [if_pos hdir] at hres
      cases hres
      exact ⟨_, hset _, rfl⟩
    · rw [if_neg hdir] at hres
      rcases hd : goIdx h.IncludeDirs (file.DirIdx - 1) with _ | d
      · rw [hd] at hres; exact absurd hres (by simp)
      rw [hd] at hres
      simp only at hres
      cases hres
      exact ⟨_, hset _, rfl⟩

/-- Registers for the C3 witness: file register 1. -/
def lnsmC3b : LineNumberStateMachine :=
  { Address := 0x1000, File := 1, Line := 3, IsStmt := true }

/-- The view produced by the C3 witness run. -/
def elfC3r : ElfView :=
  let la : LineAddrInfo :=
    { Line := 3, Addr := 0x1000, IsStmt := true, SrcDirName := "/d" }
  let f : ElfFunctionInfo :=
    { Name := "f", SrcDirName := "/d", SrcFileName := "f.c",
      Addr := 0x1000, Size := 16, LineAddrs := [(3, la)] }
  { AddrFuncIdxMap := [(0x1000, 0)], FuncsInfos := [f] }

/-- Witness for the amended C3 statement: version 5 with file register 1
selects `Files[0]` — 1-based even under version 5. -/
theorem file_index_one_based_witness :
    ∃ f2, goIdx elfC3r.FuncsInfos 0 = some f2 ∧ f2.SrcFileName = "f.c" :=
  file_index_one_based_every_version hdrC3 lnsmC3b 0x1000 elfC3 elfC3r
    { Name := "f.c", DirIdx := 0 } 0 { Name := "f", Addr := 0x1000, Size := 16 }
    (by norm_num [lnsmC3b]) (by norm_num [lnsmC3b]) (by rfl) (by rfl) (by rfl)
    (by rfl)

/-- Standard line-number opcodes (src/dwarf/dwarf.go). -/
def DW_LNS_copy : Nat := 0x01
def DW_LNS_advance_pc : Nat := 0x02
def DW_LNS_advance_line : Nat := 0x03
def DW_LNS_set_file : Nat := 0x04
def DW_LNS_set_column : Nat := 0x05
def DW_LNS_negate_stmt : Nat := 0x06
def DW_LNS_set_basic_block : Nat := 0x07
def DW_LNS_const_add_pc : Nat := 0x08
def DW_LNS_fixed_advance_pc : Nat := 0x09
def DW_LNS_set_prologue_end : Nat := 0x0A
def DW_LNS_set_epilogue_begin : Nat := 0x0B
def DW_LNS_set_isa : Nat := 0x0C

/-- Extended line-number opcodes (src/dwarf/dwarf.go). -/
def DW_LNE_end_sequence : Nat := 0x01
def DW_LNE_set_address : Nat := 0x02
def DW_LNE_define_file : Nat := 0x03
def DW_LNE_set_discriminator : Nat := 0x04
def DW_LNE_lo_user : Nat := 0x80
def DW_LNE_hi_user : Nat := 0xFF

/-- Go uint64 subtraction `n - 1` (wraps at 0). -/
def u64sub1 (n : Nat) : Nat := (n + (2 ^ 64 - 1)) % 2 ^ 64

/-- Reinterpret a byte as a Go int8 (`int8(b)`). -/
def toInt8 (p : Nat) : Int :=
  if p % 256 < 128 then (p % 256 : Int) else (p % 256 : Int) - 256

/-- Go int8 wrap-around addition result. -/
def i8wrap (x : Int) : Int := (x + 128) % 256 - 128

/-- Go `uint64(int64 value)`: the 64-bit pattern of an integer. -/
def intToU64 (x : Int) : Nat := (x % (2 ^ 64 : Int)).toNat

/-- The mutable state of one execution of the opcode loop of
`dwarf.readLineNumberProgram`: the cursor, the register file, the anchor
address `curFuncAddr` handed to the correlator, the object view mutated
through it, and the `endOfSeq` flag tested after the loop.  `emitted` is
ghost instrumentation only: it records the register snapshot and anchor
address of every row handed to `addFuncAddrLineInfo` (the row callback of
the specification); it influences nothing else. -/
structure LnpState where
  offset : Nat := 0
  lnsm : LineNumberStateMachine := {}
  curFuncAddr : Nat := 0
  elf : ElfView := {}
  endOfSeq : Bool := false
  emitted : List (LineNumberStateMachine × Nat) := []
deriving Repr, DecidableEq

/-- Dispatch on the extended sub-opcode (the inner switch of the `case
0x00` arm of `dwarf.readLineNumberProgram`).  `offset` is the cursor just
past the sub-opcode byte, `length` the uLEB-decoded instruction length,
`extendedOpcode` the sub-opcode byte value.  Only the exact values
`DW_LNE_lo_user` and `DW_LNE_hi_user` are vendor-skipped; any other
unlisted sub-opcode panics (`none`). -/
def lnpExtDispatch (h : Dwarf32LineInfoHdr) (ins : List Nat) (st : LnpState)
    (offset : Nat) (length : Nat) (extendedOpcode : Nat) : Option LnpState :=
  if extendedOpcode = DW_LNE_end_sequence then
    some { st with
      offset := offset,
      lnsm := NewLnsm (h.DefaultIsStmt % 256),
      endOfSeq := true }
  else if extendedOpcode = DW_LNE_set_address then
    let readAddr :=
      if u64sub1 length = 8 then readU64D ins offset
      else readU32D ins offset
    match readAddr with
    | none => none
    | some address =>
      some { st with
        offset := (offset + u64sub1 length) % 2 ^ 64,
        lnsm := { st.lnsm with Address := address },
        curFuncAddr := address }
  else if extendedOpcode = DW_LNE_define_file then
    some { st with offset := (offset + u64sub1 length) % 2 ^ 64 }
  else if extendedOpcode = DW_LNE_set_discriminator then
    match sliceFrom ins offset with
    | none => none
    | some s2 =>
      let r2 := ReaduLEB128 s2
      some { st with
        offset := offset + r2.2,
        lnsm := { st.lnsm with Discriminator := r2.1 } }
  else if extendedOpcode = DW_LNE_lo_user ∨
      extendedOpcode = DW_LNE_hi_user then
    some { st with offset := (offset + u64sub1 length) % 2 ^ 64 }
  else none

/-- Extended-opcode block of the loop body of
`dwarf.readLineNumberProgram` (the `case 0x00` arm): read the uLEB length
(`bytes[offset:]` slicing panics past the end), the sub-opcode byte
(indexing panics out of range), and dispatch.  `offset0` is the cursor just
past the opcode byte. -/
def lnpExtended (h : Dwarf32LineInfoHdr) (ins : List Nat) (st : LnpState)
    (offset0 : Nat) : Option LnpState :=
  match sliceFrom ins offset0 with
  | none => none
  | some s1 =>
    match goIdx ins (offset0 + (ReaduLEB128 s1).2) with
    | none => none
    | some eop0 =>
      lnpExtDispatch h ins st (offset0 + (ReaduLEB128 s1).2 + 1)
        (ReaduLEB128 s1).1 (eop0 % 256)

/-- `DW_LNS_copy` arm: hand the current registers to the correlator when
`is_stmt` is set (recording the row in the ghost `emitted` trace), then
clear basic-block, prologue-end and epilogue-begin. -/
def lnpCopy (h : Dwarf32LineInfoHdr) (st : LnpState) (offset : Nat) :
    Option LnpState :=
  let emitOpt :=
    if st.lnsm.IsStmt then
      match addFuncAddrLineInfo h st.lnsm st.curFuncAddr st.elf with
      | none => none
      | some e2 => some (e2, st.emitted ++ [(st.lnsm, st.curFuncAddr)])
    else some (st.elf, st.emitted)
  match emitOpt with
  | none => none
  | some (e2, em2) =>
    let lnsm2 :=
      { st.lnsm with
        BasicBlock := false, PrologueEnd := false, EpilogueBegin := false }
    some { st with offset := offset, elf := e2, emitted := em2, lnsm := lnsm2 }

/-- `DW_LNS_advance_pc` arm. -/
def lnpAdvancePc (h : Dwarf32LineInfoHdr) (ins : List Nat) (st : LnpState)
    (offset : Nat) : Option LnpState :=
  match sliceFrom ins offset with
  | none => none
  | some s =>
    let r := ReaduLEB128 s
    let addr2 := (st.lnsm.Address + r.1 * (h.MinInstLength % 256)) % 2 ^ 64
    some { st with
      offset := offset + r.2,
      lnsm := { st.lnsm with Address := addr2 } }

/-- `DW_LNS_advance_line` arm (signed LEB operand, int64/uint64 wrap). -/
def lnpAdvanceLine (ins : List Nat) (st : LnpState) (offset : Nat) :
    Option LnpState :=
  match sliceFrom ins offset with
  | none => none
  | some s =>
    let r := ReadsLEB128 s
    let line2 := intToU64 ((st.lnsm.Line : Int) + r.1)
    some { st with
      offset := offset + r.2,
      lnsm := { st.lnsm with Line := line2 } }

/-- `DW_LNS_set_file` arm. -/
def lnpSetFile (ins : List Nat) (st : LnpState) (offset : Nat) :
    Option LnpState :=
  match sliceFrom ins offset with
  | none => none
  | some s =>
    let r := ReaduLEB128 s
    some { st with
      offset := offset + r.2,
      lnsm := { st.lnsm with File := r.1 } }

/-- `DW_LNS_set_column` arm. -/
def lnpSetColumn (ins : List Nat) (st : LnpState) (offset : Nat) :
    Option LnpState :=
  match sliceFrom ins offset with
  | none => none
  | some s =>
    let r := ReaduLEB128 s
    some { st with
      offset := offset + r.2,
      lnsm := { st.lnsm with Column := r.1 } }

/-- `DW_LNS_const_add_pc` arm: the source computes the adjusted opcode from
the CURRENT opcode byte (`opcode - opcode_base` in uint8 arithmetic, with
`opcode = 8` here), divides by `line_range` (panic on zero) and multiplies
by the minimum instruction length, all in uint8. -/
def lnpConstAddPc (h : Dwarf32LineInfoHdr) (st : LnpState) (offset : Nat)
    (opcode : Nat) : Option LnpState :=
  if h.LineRange % 256 = 0 then none
  else
    let adjOpcode := (opcode + 256 - h.OpcodeBase % 256) % 256
    let addrInc := adjOpcode / (h.LineRange % 256) * (h.MinInstLength % 256) % 256
    let addr2 := (st.lnsm.Address + addrInc) % 2 ^ 64
    some { st with
      offset := offset,
      lnsm := { st.lnsm with Address := addr2 } }

/-- `DW_LNS_fixed_advance_pc` arm (uhalf operand, error discarded). -/
def lnpFixedAdvancePc (ins : List Nat) (st : LnpState) (offset : Nat) :
    Option LnpState :=
  match readU16D ins offset with
  | none => none
  | some address =>
    let addr2 := (st.lnsm.Address + address) % 2 ^ 64
    some { st with
      offset := offset + 2,
      lnsm := { st.lnsm with Address := addr2, OpIndex := 0 } }

/-- `DW_LNS_set_isa` arm: the source reads a SIGNED LEB and drops the
value — the `isa` register is never written. -/
def lnpSetIsa (ins : List Nat) (st : LnpState) (offset : Nat) :
    Option LnpState :=
  match sliceFrom ins offset with
  | none => none
  | some s =>
    let r := ReadsLEB128 s
    some { st with offset := offset + r.2 }

/-- Special-opcode arm (the `default` of the switch): advance line then
address, clear the three flags, move the anchor to the new address, and
hand the row to the correlator when `is_stmt` is set.  All uint8/int8/int64
operations wrap as in Go. -/
def lnpSpecial (h : Dwarf32LineInfoHdr) (st : LnpState) (offset : Nat)
    (opcode : Nat) : Option LnpState :=
  if h.LineRange % 256 = 0 then none
  else
    let adjOpcode := (opcode + 256 - h.OpcodeBase % 256) % 256
    let addrInc := adjOpcode / (h.LineRange % 256) * (h.MinInstLength % 256) % 256
    let lineInc :=
      i8wrap (i8wrap h.LineBase + toInt8 (adjOpcode % (h.LineRange % 256)))
    let line2 := intToU64 ((st.lnsm.Line : Int) + lineInc)
    let addr2 := (st.lnsm.Address + addrInc) % 2 ^ 64
    let lnsm2 :=
      { st.lnsm with
        Line := line2, Address := addr2,
        BasicBlock := false, PrologueEnd := false, EpilogueBegin := false }
    if lnsm2.IsStmt then
      match addFuncAddrLineInfo h lnsm2 addr2 st.elf with
      | none => none
      | some e2 =>
        some { st with
          offset := offset, lnsm := lnsm2, curFuncAddr := addr2,
          elf := e2, emitted := st.emitted ++ [(lnsm2, addr2)] }
    else
      some { st with offset := offset, lnsm := lnsm2, curFuncAddr := addr2 }

/-- One iteration of the opcode loop of `dwarf.readLineNumberProgram`
(the switch at source lines 2737-2854), assuming the loop guard
`offset < length` already held so the opcode byte itself is in range.
`none` models a Go panic: an unknown extended opcode, a slice or index out
of range, a division by a zero `line_range`, or a correlator panic.  The
switch arms are the helper functions above; `endOfSeq` is lowered at the
top of every iteration as in the source. -/
def lnpStep (h : Dwarf32LineInfoHdr) (ins : List Nat) (st0 : LnpState) :
    Option LnpState :=
  match goIdx ins st0.offset with
  | none => none
  | some op0 =>
    let opcode := op0 % 256
    let offset := st0.offset + 1
    let st : LnpState := { st0 with endOfSeq := false }
    if opcode = 0 then lnpExtended h ins st offset
    else if opcode = DW_LNS_copy then lnpCopy h st offset
    else if opcode = DW_LNS_advance_pc then lnpAdvancePc h ins st offset
    else if opcode = DW_LNS_advance_line then lnpAdvanceLine ins st offset
    else if opcode = DW_LNS_set_file then lnpSetFile ins st offset
    else if opcode = DW_LNS_set_column then lnpSetColumn ins st offset
    else if opcode = DW_LNS_negate_stmt then
      some { st with
        offset := offset,
        lnsm := { st.lnsm with IsStmt := !st.lnsm.IsStmt } }
    else if opcode = DW_LNS_set_basic_block then
      some { st with
        offset := offset,
        lnsm := { st.lnsm with BasicBlock := true } }
    else if opcode = DW_LNS_const_add_pc then lnpConstAddPc h st offset opcode
    else if opcode = DW_LNS_fixed_advance_pc then lnpFixedAdvancePc ins st offset
    else if opcode = DW_LNS_set_prologue_end then
      some { st with
        offset := offset,
        lnsm := { st.lnsm with PrologueEnd := true } }
    else if opcode = DW_LNS_set_epilogue_begin then
      some { st with
        offset := offset,
        lnsm := { st.lnsm with EpilogueBegin := true } }
    else if opcode = DW_LNS_set_isa then lnpSetIsa ins st offset
    else lnpSpecial h st offset opcode

/-- The opcode loop of `dwarf.readLineNumberProgram`, fuel-bounded.
Exhausting the fuel yields `none`, standing for a non-terminating Go
execution (reachable through uint64 offset wrap-around); every terminating
execution is reproduced by any sufficiently large fuel. -/
def lnpRun (h : Dwarf32LineInfoHdr) (ins : List Nat) :
    Nat → LnpState → Option LnpState
  | 0, _ => none
  | fuel + 1, st =>
    if st.offset < ins.length then
      match lnpStep h ins st with
      | none => none
      | some st2 => lnpRun h ins fuel st2
    else some st

/-- Embeds `dwarf.readLineNumberProgram` on the instruction slice
`secBin[lnpStart:lnpEnd]`: run the loop from fresh registers; when the loop
ends without the last opcode having been an `end_sequence`, the source
panics ("Error DW_LNE_end_sequence not found"), modelled as `none`. -/
def readLineNumberProgram (h : Dwarf32LineInfoHdr) (ins : List Nat)
    (e : ElfView) (fuel : Nat) : Option LnpState :=
  let st0 : LnpState :=
    { offset := 0, lnsm := NewLnsm (h.DefaultIsStmt % 256), curFuncAddr := 0,
      elf := e, endOfSeq := false, emitted := [] }
  match lnpRun h ins fuel st0 with
  | none => none
  | some st => if st.endOfSeq then some st else none

/-- A version-4 line header with one file entry, used by the C1 theorems. -/
def hdrC1 : Dwarf32LineInfoHdr :=
  { Version := 4, MinInstLength := 1, DefaultIsStmt := 1, LineBase := -5,
    LineRange := 14, OpcodeBase := 13, Files := [{ Name := "a.c", DirIdx := 0 }] }

/-- C1 counterexample: the program `[copy, end_sequence]` runs to completion
(the trailing `end_sequence` is accepted, `endOfSeq = true`), yet the final
row handed to the correlator is the `copy` row with end-sequence = false —
executing `end_sequence` emits no row at all, so no row with
end-sequence = true ever appears, let alone as the final row. -/
theorem end_sequence_emits_no_final_row :
    (readLineNumberProgram hdrC1 [1, 0, 1, 1] {} 3).map
        (fun st => (st.emitted.map (fun r => r.1.EndSequence), st.endOfSeq)) =
      some ([false], true) := by
  decide

/-- C1 amended: executing the extended opcode `end_sequence` resets the
state machine to its initial registers and raises the loop's end-of-sequence
flag, but it does NOT set the end-sequence register (the reset machine has
it false) and emits no row (the view, anchor and emitted trace are
unchanged). -/
theorem end_sequence_resets_without_emitting :
    ∀ (h : Dwarf32LineInfoHdr) (ins : List Nat) (st : LnpState) (a e0 : Nat),
      goIdx ins st.offset = some a → a % 256 = 0 →
      goIdx ins (st.offset + 1 + (ReaduLEB128 (ins.drop (st.offset + 1))).2) =
        some e0 →
      e0 % 256 = 1 →
      lnpStep h ins st =
        some { st with
          offset := st.offset + 1 + (ReaduLEB128 (ins.drop (st.offset + 1))).2 + 1,
          lnsm := NewLnsm (h.DefaultIsStmt % 256),
          endOfSeq := true } ∧
      (NewLnsm (h.DefaultIsStmt % 256)).EndSequence = false := by
  intro h ins st a e0 hga ha hge he
  have hoff : st.offset < ins.length := by
    unfold goIdx at hga
    by_contra hc
    rw [if_neg hc] at hga
    exact absurd hga (by simp)
  have hslice : sliceFrom ins (st.offset + 1) = some (ins.drop (st.offset + 1)) := by
    unfold sliceFrom
    rw [if_pos (by omega)]
  refine ⟨?_, rfl⟩
  unfold lnpStep
  rw [hga]
  simp only [ha, if_true, eq_self_iff_true]
  unfold lnpExtended
  rw [hslice]
  show (match goIdx ins (st.offset + 1 +
        (ReaduLEB128 (ins.drop (st.offset + 1))).2) with
    | none => none
    | some eop0 =>
      lnpExtDispatch h ins { st with endOfSeq := false }
        (st.offset + 1 + (ReaduLEB128 (ins.drop (st.offset + 1))).2 + 1)
        (ReaduLEB128 (ins.drop (st.offset + 1))).1 (eop0 % 256)) = _
  rw [hge]
  show lnpExtDispatch h ins { st with endOfSeq := false }
    (st.offset + 1 + (ReaduLEB128 (ins.drop (st.offset + 1))).2 + 1)
    (ReaduLEB128 (ins.drop (st.offset + 1))).1 (e0 % 256) = _
  rw [he]
  rfl

/-- Witness for the amended C1 statement. -/
theorem end_sequence_resets_without_emitting_witness :
    lnpStep hdrC1 [0, 1, 1] {} =
      some { offset := 3, lnsm := NewLnsm 1, endOfSeq := true } ∧
    (NewLnsm 1).EndSequence = false :=
  end_sequence_resets_without_emitting hdrC1 [0, 1, 1] {} 0 1
    (by decide) (by decide) (by decide) (by decide)

/-- A line header with opcode base 10 and line range 2, exposing the
`const_add_pc` divergence (C2). -/
def hdrC2 : Dwarf32LineInfoHdr :=
  { OpcodeBase := 10, LineRange := 2, MinInstLength := 1, DefaultIsStmt := 1 }

/-- C2: executing `DW_LNS_const_add_pc` (opcode byte 8) under opcode base
10, line range 2, minimum instruction length 1 advances the address by 127
= ((8 - 10) mod 256 / 2) * 1 — the code computes the adjusted opcode from
the current opcode byte 8 — while the claim's formula
((255 - opcode_base) / line_range) * min_inst_length gives 122.  No row is
emitted and only the opcode byte is consumed. -/
theorem const_add_pc_uses_opcode_byte_eight :
    (lnpStep hdrC2 [8] { lnsm := NewLnsm 1 }).map
        (fun st => (st.lnsm.Address, st.emitted.length, st.offset,
          st.lnsm.Line, st.lnsm.File, st.lnsm.IsStmt)) =
      some (127, 0, 1, 1, 1, true) ∧
    (255 - 10) / 2 * 1 = 122 ∧ (127 : Nat) ≠ 122 := by
  decide

/-- A version-4 line header with one file entry, used by the C9 theorems. -/
def hdrC9 : Dwarf32LineInfoHdr :=
  { Version := 4, MinInstLength := 1, DefaultIsStmt := 1,
    Files := [{ Name := "m.c", DirIdx := 0 }] }

/-- Object view with one function at 0x1000 of size 16, its address map
built exactly as the ELF loader builds it (one entry per covered address). -/
def elfC9 : ElfView :=
  { AddrFuncIdxMap := (List.range 16).map (fun k => (0x1000 + k, 0)),
    FuncsInfos := [{ Name := "main", Addr := 0x1000, Size := 16 }] }

/-- Line program for C9: `set_address 0x1000; advance_pc 0x20; copy;
end_sequence`. -/
def insC9 : List Nat :=
  [0, 9, 2, 0x00, 0x10, 0, 0, 0, 0, 0, 0] ++ [2, 0x20] ++ [1] ++ [0, 1, 1]

/-- C9 counterexample: after `set_address 0x1000` the anchor stays at
0x1000 while `advance_pc 0x20` moves the address register to 0x1020; the
`copy` row is then attached to the function at 0x1000 (looked up by the
anchor, not the row's address) and stores address 0x1020, which lies
outside [0x1000, 0x1000 + 16). -/
theorem line_map_address_outside_function :
    (readLineNumberProgram hdrC9 insC9 elfC9 10).map
        (fun st => st.elf.FuncsInfos.map
          (fun f => (f.Addr, f.Size, f.LineAddrs.map (fun p => p.2.Addr)))) =
      some [(0x1000, 16, [0x1020])] ∧
    ¬((0x1020 : Nat) < 0x1000 + 16) := by
  decide

/-- C9 amended: when a row is attached with the lookup address equal to the
row's address register — as every special-opcode emission does — and that
address lies within the matched function's [low_pc, low_pc + size), then
every entry of the updated per-line map is either a pre-existing entry or
the new row, whose stored address equals the row's address and lies in
range.  (Rows emitted by `DW_LNS_copy` after `advance_pc` may instead store
an address different from the lookup anchor, as the counterexample shows.) -/
theorem anchored_row_attachment_in_range :
    ∀ (h : Dwarf32LineInfoHdr) (lnsm : LineNumberStateMachine) (e e2 : ElfView)
      (idx : Nat) (f : ElfFunctionInfo),
      GetFuncIdxByAddr e lnsm.Address = some idx →
      goIdx e.FuncsInfos idx = some f →
      f.Addr ≤ lnsm.Address → lnsm.Address < f.Addr + f.Size →
      addFuncAddrLineInfo h lnsm lnsm.Address e = some e2 →
      ∃ f2, goIdx e2.FuncsInfos idx = some f2 ∧
        ∀ p ∈ f2.LineAddrs, p ∈ f.LineAddrs ∨
          (p.2.Addr = lnsm.Address ∧ f.Addr ≤ p.2.Addr ∧
            p.2.Addr < f.Addr + f.Size) := by
  intro h lnsm e e2 idx f hidx hf hlo hhi hres
  have hlt : idx < e.FuncsInfos.length := by
    unfold goIdx at hf
    by_contra hge
    rw [if_neg hge] at hf
    exact absurd hf (by simp)
  have hset : ∀ g : ElfFunctionInfo,
      goIdx (e.FuncsInfos.set idx g) idx = some g := by
    intro g
    unfold goIdx
    rw [if_pos (by rw [List.length_set]; exact hlt)]
    exact List.getElem?_set_self hlt
  have hmem : ∀ (la : LineAddrInfo) (p : Nat × LineAddrInfo),
      la.Addr = lnsm.Address →
      p ∈ mapUpdate f.LineAddrs lnsm.Line la →
      p ∈ f.LineAddrs ∨
        (p.2.Addr = lnsm.Address ∧ f.Addr ≤ p.2.Addr ∧
          p.2.Addr < f.Addr + f.Size) := by
    intro la p hla hp
    unfold mapUpdate at hp
    rcases List.mem_append.mp hp with hp | hp
    · exact Or.inl (List.mem_filter.mp hp).1
    · have : p = (lnsm.Line, la) := by simpa using hp
      subst this
      right
      simp only [hla]
      exact ⟨trivial, hlo, hhi⟩
  unfold addFuncAddrLineInfo at hres
  rcases hfile : goIdx h.Files ((lnsm.File + (2 ^ 64 - 1)) % 2 ^ 64) with _ | file
  · rw [hfile] at hres; exact absurd hres (by simp)
  rw [hfile] at hres
  simp only at hres
  rw [hidx] at hres
  simp only at hres
  rw [hf] at hres
  simp only at hres
  by_cases hv : 5 ≤ h.Version
  · rw [if_pos hv] at hres
    rcases hd : goIdx h.IncludeDirs file.DirIdx with _ | d
    · rw [hd] at hres; exact absurd hres (by simp)
    rw [hd] at hres
    simp only at hres
    cases hres
    exact ⟨_, hset _, fun p hp => hmem _ p rfl hp⟩
  · rw [if_neg hv] at hres
    by_cases hdir : file.DirIdx < 1
    · rw [if_pos hdir] at hres
      cases hres
      exact ⟨_, hset _, fun p hp => hmem _ p rfl hp⟩
    · rw [if_neg hdir] at hres
      rcases hd : goIdx h.IncludeDirs (file.DirIdx - 1) with _ | d
      · rw [hd] at hres; exact absurd hres (by simp)
      rw [hd] at hres
      simp only at hres
      cases hres
      exact ⟨_, hset _, fun p hp => hmem _ p rfl hp⟩

/-- Registers for the C9 witness: an anchored row at the function start. -/
def lnsmC9w : LineNumberStateMachine :=
  { Address := 0x1000, File := 1, Line := 7, IsStmt := true }

/-- The view produced by the C9 witness attachment. -/
def elfC9r : ElfView :=
  let la : LineAddrInfo := { Line := 7, Addr := 0x1000, IsStmt := true }
  let f : ElfFunctionInfo :=
    { Name := "main", SrcFileName := "m.c", Addr := 0x1000, Size := 16,
      LineAddrs := [(7, la)] }
  { AddrFuncIdxMap := (List.range 16).map (fun k => (0x1000 + k, 0)),
    FuncsInfos := [f] }

/-- Witness for the amended C9 statement. -/
theorem anchored_row_attachment_in_range_witness :
    ∃ f2, goIdx elfC9r.FuncsInfos 0 = some f2 ∧
      ∀ p ∈ f2.LineAddrs,
        p ∈ ({ Name := "main", Addr := 0x1000, Size := 16 } :
            ElfFunctionInfo).LineAddrs ∨
        (p.2.Addr = lnsmC9w.Address ∧
          ({ Name := "main", Addr := 0x1000, Size := 16 } :
            ElfFunctionInfo).Addr ≤ p.2.Addr ∧
          p.2.Addr < ({ Name := "main", Addr := 0x1000, Size := 16 } :
            ElfFunctionInfo).Addr +
            ({ Name := "main", Addr := 0x1000, Size := 16 } :
              ElfFunctionInfo).Size) :=
  anchored_row_attachment_in_range hdrC9 lnsmC9w elfC9 elfC9r 0
    { Name := "main", Addr := 0x1000, Size := 16 }
    (by rfl) (by rfl) (by norm_num [lnsmC9w]) (by norm_num [lnsmC9w]) (by rfl)

/-- `DW_AT_decl_file` (src/dwarf/dwarf.go). -/
def DW_AT_decl_file : Nat := 0x3a

/-- Cursor effect of one arm of the attribute-form switch in
`dwarf.ReadDebugInfo` (source lines 1756-2386), given the CU header, the
`.debug_info` bytes and the current offset.  Value extraction (which never
moves the cursor) is not represented.  Arms whose control flow depends on
section or header state not embedded here — `strp`, `string`, `line_strp`
(NUL-terminated string resolution with tag-dependent panics), `sec_offset`
and `exprloc` (attribute-dependent sub-dispatch), and the `DW_AT_decl_file`
sub-paths of `data1` / `implicit_const` — are conservatively mapped to
`none`, so no theorem can rely on them; every other arm, including the
final panic on an unknown form, is translated exactly. -/
def attrFormAdvance (cuh : Dwarf32CuHdr) (bin : List Nat) (offset : Nat)
    (attr : AbbrevAttr) : Option Nat :=
  if attr.Form = 0x01 then       -- DW_FORM_addr
    let readOk :=
      if cuh.AddressSize = 2 then (readU16D bin offset).isSome
      else if cuh.AddressSize = 4 then (readU32D bin offset).isSome
      else if cuh.AddressSize = 8 then (readU64D bin offset).isSome
      else true
    if readOk then some (offset + cuh.AddressSize) else none
  else if attr.Form = 0x03 then  -- DW_FORM_block2
    match readU16D bin offset with
    | none => none
    | some v => some (offset + 2 + v)
  else if attr.Form = 0x04 then  -- DW_FORM_block4
    match readU32D bin offset with
    | none => none
    | some v => some (offset + 4 + v)
  else if attr.Form = 0x05 then  -- DW_FORM_data2
    match readU16D bin offset with
    | none => none
    | some _ => some (offset + 2)
  else if attr.Form = 0x06 then  -- DW_FORM_data4
    match readU32D bin offset with
    | none => none
    | some _ => some (offset + 4)
  else if attr.Form = 0x07 then  -- DW_FORM_data8
    match readU64D bin offset with
    | none => none
    | some _ => some (offset + 8)
  else if attr.Form = 0x09 then  -- DW_FORM_block: only the LEB length is
    match sliceFrom bin offset with  -- consumed; the payload is not skipped
    | none => none
    | some s => some (offset + (ReaduLEB128 s).2)
  else if attr.Form = 0x0a then  -- DW_FORM_block1
    match goIdx bin offset with
    | none => none
    | some b => some (offset + 1 + b % 256)
  else if attr.Form = 0x0b then  -- DW_FORM_data1
    if attr.Attr = DW_AT_decl_file then none
    else
      match goIdx bin offset with
      | none => none
      | some _ => some (offset + 1)
  else if attr.Form = 0x0c then  -- DW_FORM_flag
    match goIdx bin offset with
    | none => none
    | some _ => some (offset + 1)
  else if attr.Form = 0x0d then  -- DW_FORM_sdata
    match sliceFrom bin offset with
    | none => none
    | some s => some (offset + (ReadsLEB128 s).2)
  else if attr.Form = 0x0f then  -- DW_FORM_udata
    match sliceFrom bin offset with
    | none => none
    | some s => some (offset + (ReaduLEB128 s).2)
  else if attr.Form = 0x11 then  -- DW_FORM_ref1
    match goIdx bin offset with
    | none => none
    | some _ => some (offset + 1)
  else if attr.Form = 0x12 then  -- DW_FORM_ref2
    match readU16D bin offset with
    | none => none
    | some _ => some (offset + 2)
  else if attr.Form = 0x13 then  -- DW_FORM_ref4
    match readU32D bin offset with
    | none => none
    | some _ => some (offset + 4)
  else if attr.Form = 0x19 then  -- DW_FORM_flag_present: no data
    some offset
  else if attr.Form = 0x21 then  -- DW_FORM_implicit_const: no data
    if attr.Attr = DW_AT_decl_file then none else some offset
  else none

/-- Fold `attrFormAdvance` over an abbreviation's attribute list (the inner
`for _, attr := range abbrev.Attrs` of `dwarf.ReadDebugInfo`). -/
def attrsAdvance (cuh : Dwarf32CuHdr) (bin : List Nat) :
    List AbbrevAttr → Nat → Option Nat
  | [], offset => some offset
  | a :: rest, offset =>
    match attrFormAdvance cuh bin offset a with
    | none => none
    | some off2 => attrsAdvance cuh bin rest off2

/-- One visited DIE: its entry offset, abbreviation code, and whether the
code was present in the CU's abbreviation map. -/
structure DieVisit where
  entryOffset : Nat
  abbrevCode : Nat
  found : Bool
deriving Repr, DecidableEq

/-- The Go zero value of `Abbrev`, produced by `abbrevMap[id]` when `id` is
absent from the map. -/
def zeroAbbrev : Abbrev := { Id := 0, Tag := 0, HasChildren := false, Attrs := [] }

/-- Cursor/control model of the DIE loop of `dwarf.ReadDebugInfo` (source
lines 1740-2413) for one CU: while `offset < cuEnd`, read the abbreviation
code (`debug_info[offset:]` slicing panics past the end); code 0 advances
one byte; otherwise `abbrevMap[id]` yields the map entry OR THE ZERO
`Abbrev` when the code is absent, and the attribute list (empty for the
zero value) is consumed by form.  The per-function record bookkeeping of
the loop body moves no cursor and is not represented; instead each
processed DIE is recorded as a visit.  `fuel` bounds the iterations. -/
def dieWalkAux (cuh : Dwarf32CuHdr) (bin : List Nat)
    (abbrevMap : Nat → Option Abbrev) (cuEnd : Nat) :
    Nat → Nat → List DieVisit → Option (List DieVisit × Nat)
  | 0, _, _ => none
  | fuel + 1, offset, acc =>
    if offset < cuEnd then
      match sliceFrom bin offset with
      | none => none
      | some s =>
        let r := ReaduLEB128 s
        if r.1 = 0 then dieWalkAux cuh bin abbrevMap cuEnd fuel (offset + 1) acc
        else
          let entry := (abbrevMap r.1).getD zeroAbbrev
          match attrsAdvance cuh bin entry.Attrs (offset + r.2) with
          | none => none
          | some off2 =>
            dieWalkAux cuh bin abbrevMap cuEnd fuel off2
              (acc ++ [⟨offset, r.1, (abbrevMap r.1).isSome⟩])
    else some (acc, offset)

/-- Abbreviation map for the C8 theorems: one entry, code 1, no
attributes. -/
def abbrevMapC8 (c : Nat) : Option Abbrev :=
  if c = 1 then some { Id := 1, Tag := 0x11, HasChildren := false, Attrs := [] }
  else none

/-- C8 counterexample: a DIE stream `[5, 1]` (code 5 absent from the map,
then code 1 present) inside a CU ending at offset 2.  The walker does not
skip to the CU end after the missing code 5: it substitutes the zero
abbreviation, advances one byte, and processes the NEXT DIE of the same CU
(code 1, found), finishing exactly at the CU end. -/
theorem missing_abbrev_does_not_skip_cu :
    dieWalkAux {} [5, 1] abbrevMapC8 2 3 0 [] =
      some ([⟨0, 5, false⟩, ⟨1, 1, true⟩], 2) := by
  decide

/-- C8 amended: a DIE whose abbreviation code is absent from the CU's
abbreviation map is not fatal and triggers no skip: the Go map lookup
yields the zero `Abbrev` (no attributes), so the walker consumes exactly
the code's LEB128 bytes, records the DIE, and continues with the next DIE
of the same CU; no warning is reported. -/
theorem missing_abbrev_continues_next_die :
    ∀ (cuh : Dwarf32CuHdr) (bin : List Nat) (abbrevMap : Nat → Option Abbrev)
      (cuEnd fuel offset : Nat) (acc : List DieVisit),
      offset < cuEnd → offset ≤ bin.length →
      (ReaduLEB128 (bin.drop offset)).1 ≠ 0 →
      abbrevMap (ReaduLEB128 (bin.drop offset)).1 = none →
      dieWalkAux cuh bin abbrevMap cuEnd (fuel + 1) offset acc =
        dieWalkAux cuh bin abbrevMap cuEnd fuel
          (offset + (ReaduLEB128 (bin.drop offset)).2)
          (acc ++ [⟨offset, (ReaduLEB128 (bin.drop offset)).1, false⟩]) := by
  intro cuh bin abbrevMap cuEnd fuel offset acc hlt hle hnz hmiss
  have hslice : sliceFrom bin offset = some (bin.drop offset) := by
    unfold sliceFrom
    rw [if_pos hle]
  rw [dieWalkAux, if_pos hlt, hslice]
  simp only [hnz, hmiss, if_false, if_neg hnz]
  rfl

/-- Witness for the amended C8 statement. -/
theorem missing_abbrev_continues_next_die_witness :
    dieWalkAux {} [5, 1] abbrevMapC8 2 3 0 [] =
      dieWalkAux {} [5, 1] abbrevMapC8 2 2 1 [⟨0, 5, false⟩] :=
  missing_abbrev_continues_next_die {} [5, 1] abbrevMapC8 2 2 0 []
    (by decide) (by decide) (by decide) (by decide)

end SymExposer
